import Mathlib

/-!
Verification of the tiered tensor/device layer of
`speedup/flexgen/infinigen/pytorch_backend.py` (InfiniGen).

Each definition below is a shallow embedding of one function or code path of
that file; line numbers in doc comments refer to the Python source.  Machine
tensors are abstracted to the data the verified properties depend on: shapes
are lists of naturals, index tuples are lists of unit-stride slices,
per-row embeddings are lists of rationals, and file systems are finite sets
of path identifiers.
-/

/-! ### Small `List.getD` toolkit (proved from first principles) -/

theorem getD_append_lt {α : Type} : ∀ (l1 l2 : List α) (i : ℕ) (d : α),
    i < l1.length → (l1 ++ l2).getD i d = l1.getD i d := by
  intro l1
  induction l1 with
  | nil => intro l2 i d h; cases h
  | cons x xs ih =>
    intro l2 i d h
    cases i with
    | zero => rfl
    | succ j =>
      simp only [List.cons_append, List.getD_cons_succ]
      exact ih l2 j d (Nat.lt_of_succ_lt_succ h)

theorem getD_append_ge {α : Type} : ∀ (l1 l2 : List α) (i : ℕ) (d : α),
    l1.length ≤ i → (l1 ++ l2).getD i d = l2.getD (i - l1.length) d := by
  intro l1
  induction l1 with
  | nil => intro l2 i d _; rfl
  | cons x xs ih =>
    intro l2 i d h
    cases i with
    | zero => cases h
    | succ j =>
      simp only [List.cons_append, List.getD_cons_succ, List.length_cons,
        Nat.succ_sub_succ]
      exact ih l2 j d (Nat.le_of_succ_le_succ h)

theorem getD_take_of_lt {α : Type} : ∀ (l : List α) (n i : ℕ) (d : α),
    i < n → (l.take n).getD i d = l.getD i d := by
  intro l
  induction l with
  | nil => intro n i d _; simp [List.take_nil]
  | cons x xs ih =>
    intro n i d h
    cases n with
    | zero => cases h
    | succ m =>
      cases i with
      | zero => rfl
      | succ j =>
        simp only [List.take_succ_cons, List.getD_cons_succ]
        exact ih m j d (Nat.lt_of_succ_lt_succ h)

theorem getD_drop {α : Type} : ∀ (l : List α) (n i : ℕ) (d : α),
    (l.drop n).getD i d = l.getD (n + i) d := by
  intro l
  induction l with
  | nil => intro n i d; simp [List.drop_nil]
  | cons x xs ih =>
    intro n i d
    cases n with
    | zero => simp
    | succ m =>
      simp only [List.drop_succ_cons, Nat.succ_add, List.getD_cons_succ]
      exact ih m i d

theorem getD_zipWith {α β γ : Type} (f : α → β → γ) :
    ∀ (l1 : List α) (l2 : List β) (i : ℕ) (d : γ) (d1 : α) (d2 : β),
    i < l1.length → i < l2.length →
    (List.zipWith f l1 l2).getD i d = f (l1.getD i d1) (l2.getD i d2) := by
  intro l1
  induction l1 with
  | nil => intro l2 i d d1 d2 h _; cases h
  | cons x xs ih =>
    intro l2 i d d1 d2 h1 h2
    cases l2 with
    | nil => cases h2
    | cons y ys =>
      cases i with
      | zero => rfl
      | succ j =>
        simp only [List.zipWith_cons_cons, List.getD_cons_succ]
        exact ih ys j d d1 d2 (Nat.lt_of_succ_lt_succ h1) (Nat.lt_of_succ_lt_succ h2)

theorem getD_map_of_lt {α β : Type} (f : α → β) :
    ∀ (l : List α) (i : ℕ) (d : β) (d0 : α),
    i < l.length → (l.map f).getD i d = f (l.getD i d0) := by
  intro l
  induction l with
  | nil => intro i d d0 h; cases h
  | cons x xs ih =>
    intro i d d0 h
    cases i with
    | zero => rfl
    | succ j =>
      simp only [List.map_cons, List.getD_cons_succ]
      exact ih j d d0 (Nat.lt_of_succ_lt_succ h)

theorem getD_range : ∀ (n i : ℕ) (d : ℕ), i < n → (List.range n).getD i d = i := by
  intro n
  induction n with
  | zero => intro i d h; cases h
  | succ m ih =>
    intro i d h
    rw [List.range_succ]
    rcases Nat.lt_or_ge i m with h2 | h2
    · rw [getD_append_lt _ _ _ _ (by simpa using h2)]
      exact ih i d h2
    · have him : i = m := Nat.le_antisymm (Nat.le_of_lt_succ h) h2
      subst him
      rw [getD_append_ge _ _ _ _ (by simp)]
      simp

/-! ### Device tiers (class `DeviceType`, lines 36-56) -/

inductive DeviceType : Type
  | cpu
  | cuda
  | disk
  | mixed
  | compressed
deriving DecidableEq, Repr

/-- Segment dimension for tensors stored on TorchMixedDevice (line 729). -/
def SEG_DIM : ℕ := 1

/-! ### Disk worker threads (`copy_worker_func`, lines 905-935)

A worker repeatedly pops an item from the queue.  An item is either the
`None` shutdown sentinel or a copy task; we record for each copy task
whether the two `copy_` calls it performs succeed or raise.  The Python body
has no `try`/`except`: an exception escaping the loop terminates the thread
function, and `queue.task_done()` is then not executed for that item. -/

inductive QItem : Type
  | sentinel
  | work (ok : Bool)
deriving DecidableEq, Repr

inductive WorkerExit : Type
  | sentinelExit
  | crashed
  | blocked
deriving DecidableEq, Repr

structure WorkerResult : Type where
  tasksDone : ℕ
  processed : ℕ
  exitKind : WorkerExit
  recordedErrors : List ℕ
deriving DecidableEq, Repr

/-- Shallow embedding of the loop of `copy_worker_func` (lines 913-935) run by a
single worker over the successive items it pops.  `tasksDone` counts
`queue.task_done()` acknowledgments, `processed` counts popped items,
`recordedErrors` is whatever error state the worker stores for later
surfacing (the source stores none), and the exit kind distinguishes the
`return` on the `None` sentinel from the thread dying on an uncaught
exception, or blocking on an empty queue. -/
def copy_worker_func : List QItem → WorkerResult
  | [] => ⟨0, 0, WorkerExit.blocked, []⟩
  | QItem.sentinel :: _ => ⟨1, 1, WorkerExit.sentinelExit, []⟩
  | QItem.work ok :: rest =>
    if ok then
      let r := copy_worker_func rest
      ⟨r.tasksDone + 1, r.processed + 1, r.exitKind, r.recordedErrors⟩
    else
      ⟨0, 1, WorkerExit.crashed, []⟩

/-- A queue item is a successful copy task. -/
def goodWork (t : QItem) : Prop := t = QItem.work true

theorem copy_worker_func_all_ok : ∀ (good : List QItem),
    (∀ t ∈ good, goodWork t) →
    copy_worker_func (good ++ [QItem.sentinel])
      = ⟨good.length + 1, good.length + 1, WorkerExit.sentinelExit, []⟩ := by
  intro good
  induction good with
  | nil => intro _; rfl
  | cons x xs ih =>
    intro h
    have hx : x = QItem.work true := h x (List.mem_cons_self x xs)
    subst hx
    have hxs : ∀ t ∈ xs, goodWork t := fun t ht => h t (List.mem_cons_of_mem _ ht)
    simp [copy_worker_func, ih hxs]

theorem copy_worker_func_crash : ∀ (good : List QItem) (rest : List QItem),
    (∀ t ∈ good, goodWork t) →
    copy_worker_func (good ++ QItem.work false :: rest)
      = ⟨good.length, good.length + 1, WorkerExit.crashed, []⟩ := by
  intro good
  induction good with
  | nil => intro rest _; rfl
  | cons x xs ih =>
    intro rest h
    have hx : x = QItem.work true := h x (List.mem_cons_self x xs)
    subst hx
    have hxs : ∀ t ∈ xs, goodWork t := fun t ht => h t (List.mem_cons_of_mem _ ht)
    simp [copy_worker_func, ih rest hxs]

/-- Claim C1 (counterexample): popping a copy task whose copy raises leaves the
pending-task counter unacknowledged (`tasksDone = 0` though one task was
popped), terminates the worker thread (exit kind is `crashed`, not the
sentinel exit the claim says is the only way out), and records no error for
a later `synchronize` to raise. -/
theorem C1_counterexample :
    (copy_worker_func [QItem.work false]).tasksDone = 0
    ∧ (copy_worker_func [QItem.work false]).processed = 1
    ∧ (copy_worker_func [QItem.work false]).exitKind = WorkerExit.crashed
    ∧ (copy_worker_func [QItem.work false]).recordedErrors = [] := by
  decide

/-- Claim C1 (amended): a worker acknowledges exactly the tasks whose copy
succeeds plus the shutdown sentinel.  If every task before a sentinel
succeeds, the worker drains them all and exits on the sentinel; but a task
whose copy raises terminates the worker thread without acknowledging that
task and without recording the error anywhere, so the queue's pending-task
counter stays positive and a later `synchronize` (which joins on the
counter) blocks instead of raising. -/
theorem C1_amended :
    (∀ (good : List QItem) (rest : List QItem),
      (∀ t ∈ good, goodWork t) →
      copy_worker_func (good ++ QItem.work false :: rest)
        = ⟨good.length, good.length + 1, WorkerExit.crashed, []⟩)
    ∧ (∀ good : List QItem,
      (∀ t ∈ good, goodWork t) →
      copy_worker_func (good ++ [QItem.sentinel])
        = ⟨good.length + 1, good.length + 1, WorkerExit.sentinelExit, []⟩) :=
  ⟨copy_worker_func_crash, copy_worker_func_all_ok⟩

/-- Claim C1 (witness): the amended behaviour at a concrete queue — one
successful task followed by one failing task crashes the worker with a
single acknowledgment, while one successful task followed by the sentinel
exits cleanly with both acknowledged. -/
theorem C1_amended_witness :
    copy_worker_func [QItem.work true, QItem.work false]
      = ⟨1, 2, WorkerExit.crashed, []⟩
    ∧ copy_worker_func [QItem.work true, QItem.sentinel]
      = ⟨2, 2, WorkerExit.sentinelExit, []⟩ :=
  ⟨C1_amended.1 [QItem.work true] [] (by simp [goodWork]),
   C1_amended.2 [QItem.work true] (by simp [goodWork])⟩

/-! ### `synchronize` on the Disk backend (lines 706-707) versus the device
barrier (lines 613-614)

`TorchDisk.synchronize` is exactly `self.copy_queue.join()`: it blocks until
the queue's unfinished-task counter reaches zero and touches nothing else.
The CUDA barrier is a different method, `TorchDevice.synchronize`, which
runs `torch.cuda.synchronize()`.  We model the state a caller can observe
after each call returns: the queue's pending-task counter and whether a
device-level barrier has been issued since the last batch of
accelerator-native non-blocking copies. -/

structure DiskState : Type where
  pending : ℕ
  cudaBarrierIssued : Bool
deriving DecidableEq, Repr

/-- TorchDisk.synchronize (lines 706-707): `self.copy_queue.join()`.  Upon
return the unfinished-task counter is zero; no CUDA barrier is issued. -/
def TorchDisk_synchronize (s : DiskState) : DiskState :=
  ⟨0, s.cudaBarrierIssued⟩

/-- TorchDevice.synchronize (lines 613-614): `torch.cuda.synchronize()`, the
device-level barrier.  It does not touch the disk queue. -/
def TorchDevice_synchronize (s : DiskState) : DiskState :=
  ⟨s.pending, true⟩

/-- Number of unacknowledged queue items after a worker consumed the queue:
puts minus `task_done` acknowledgments. -/
def pendingAfterRun (q : List QItem) : ℕ :=
  q.length - (copy_worker_func q).tasksDone

/-- Claim C2 (counterexample): returning from the Disk backend's
`synchronize` zeroes the pending-task counter but issues no device-level
barrier — starting from three pending tasks and no barrier issued, the
post-state still has no barrier issued, contradicting the claim that a
device-level barrier has been issued when `synchronize()` returns. -/
theorem C2_counterexample :
    (TorchDisk_synchronize ⟨3, false⟩).pending = 0
    ∧ (TorchDisk_synchronize ⟨3, false⟩).cudaBarrierIssued = false := by
  decide

/-- Claim C2 (amended): when `synchronize()` on the Disk backend returns, the
pending-task counter is zero (a fully consumed all-successful queue leaves
no unacknowledged item, and `join` returns only once the counter is zero),
but the Disk backend's `synchronize` leaves the device-barrier state exactly
as it was: the device-level barrier for accelerator-native non-blocking
copies is only issued by the separate `TorchDevice.synchronize`
(`torch.cuda.synchronize()`), as the `general_copy` docstring instructs. -/
theorem C2_amended : ∀ (q : List QItem),
    (∀ t ∈ q, goodWork t) →
    pendingAfterRun (q ++ [QItem.sentinel]) = 0
    ∧ (∀ s : DiskState, (TorchDisk_synchronize s).pending = 0)
    ∧ (∀ s : DiskState,
        (TorchDisk_synchronize s).cudaBarrierIssued = s.cudaBarrierIssued)
    ∧ (∀ s : DiskState, (TorchDevice_synchronize s).cudaBarrierIssued = true) := by
  intro q hq
  refine ⟨?_, fun s => rfl, fun s => rfl, fun s => rfl⟩
  unfold pendingAfterRun
  rw [copy_worker_func_all_ok q hq]
  simp

/-- Claim C2 (witness): the amended statement at the concrete queue of two
successful tasks. -/
theorem C2_amended_witness :
    pendingAfterRun [QItem.work true, QItem.work true, QItem.sentinel] = 0
    ∧ (TorchDisk_synchronize ⟨7, false⟩).cudaBarrierIssued = false :=
  ⟨(C2_amended [QItem.work true, QItem.work true] (by simp [goodWork])).1,
   (C2_amended [] (by simp)).2.2.1 ⟨7, false⟩⟩

/-! ### Output stage sampling decision (`TorchDevice.opt_output_embed`,
lines 274-294)

After layer norm and the vocabulary projection, the stage takes the last
position's logits and either samples from the temperature-scaled softmax or
takes the arg-max:
`if do_sample and not temperature < 1e-5: ... torch.multinomial ...`
`else: ... argmax ...`.  We embed the branch decision with logits as
rational rows. -/

inductive TokenChoice : Type
  | multinomialSample (temperature : ℚ) (logits : List ℚ)
  | argmaxSelect (logits : List ℚ)
deriving DecidableEq, Repr

/-- Decision core of `opt_output_embed` (lines 287-293): `last_token_logits =
logits[:, -1, :]`, then multinomial sampling over
`softmax(last_token_logits / temperature)` when
`do_sample and not temperature < 1e-5`, else arg-max over
`last_token_logits`. -/
def opt_output_embed_choice (logits : List (List ℚ)) (do_sample : Bool)
    (temperature : ℚ) : TokenChoice :=
  let lastTokenLogits := logits.getLastD []
  if do_sample = true ∧ ¬ temperature < 1 / 100000 then
    TokenChoice.multinomialSample temperature lastTokenLogits
  else
    TokenChoice.argmaxSelect lastTokenLogits

/-- Claim C10: multinomial sampling over the temperature-scaled softmax of the
last position's logits is used exactly when `do_sample` is true and
`temperature` is at least `1e-5`; every call with `do_sample` true but
`temperature < 1e-5` silently falls back to arg-max selection over the last
position's logits. -/
theorem C10_output_sampling : ∀ (logits : List (List ℚ)) (ds : Bool) (t : ℚ),
    ((∃ l, opt_output_embed_choice logits ds t
        = TokenChoice.multinomialSample t l)
      ↔ (ds = true ∧ 1 / 100000 ≤ t))
    ∧ (ds = true → t < 1 / 100000 →
        opt_output_embed_choice logits ds t
          = TokenChoice.argmaxSelect (logits.getLastD [])) := by
  intro logits ds t
  unfold opt_output_embed_choice
  constructor
  · by_cases hc : ds = true ∧ ¬ t < 1 / 100000
    · rw [if_pos hc]
      simp only [not_lt] at hc
      exact ⟨fun _ => hc, fun _ => ⟨logits.getLastD [], rfl⟩⟩
    · rw [if_neg hc]
      constructor
      · rintro ⟨l, hl⟩
        cases hl
      · intro h2
        exact absurd ⟨h2.1, not_lt.mpr h2.2⟩ hc
  · intro hds hlt
    rw [if_neg]
    rintro ⟨-, hge⟩
    exact hge hlt

/-- Claim C10 (witness): with `do_sample = true` and temperature `1/200000 <
1e-5` the concrete call arg-maxes the last row. -/
theorem C10_witness :
    opt_output_embed_choice [[1, 2]] true (1 / 200000)
      = TokenChoice.argmaxSelect [1, 2] :=
  (C10_output_sampling [[1, 2]] true (1 / 200000)).2 rfl (by norm_num)

/-! ### Handle deletion (`TorchTensor.delete` lines 107-111,
`TorchDisk.delete` lines 690-692, `TorchMixedDevice.delete` lines 760-763)

A `TorchTensor` keeps `device` and `data`; `delete` asserts the handle is
still live, dispatches to the owning device's `delete` only when the tier is
Disk, and then clears `device` and `data`.  We model a handle by its
(optional) tier tag, its (optional) backing-file id, its `delete_file` flag
and the ids of its sub-handles when Segmented; the file system is a finite
set of file ids, and the store of other live handles is carried alongside to
express what `delete` does **not** touch. -/

structure TT : Type where
  deviceType : Option DeviceType
  dataFile : Option ℕ
  delete_file : Bool
  subHandleIds : List ℕ
deriving DecidableEq, Repr

inductive DeleteErr : Type
  | useAfterDelete
deriving DecidableEq, Repr

inductive AttrErr : Type
  | noAttribute
deriving DecidableEq, Repr

/-- TorchDisk.delete (lines 690-692): `if os.path.exists(tensor.data) and
tensor.delete_file: os.remove(tensor.data)`. -/
def TorchDisk_delete (fs : Finset ℕ) (t : TT) : Finset ℕ :=
  match t.dataFile with
  | some f => if f ∈ fs ∧ t.delete_file = true then fs.erase f else fs
  | none => fs

/-- TorchTensor.delete (lines 107-111): `assert self.device is not None,
"already deleted"`; `if self.device.device_type == DeviceType.DISK:
self.device.delete(self)`; `self.device = self.data = None`.  The store of
other handles is passed through untouched because the method reads none of
them. -/
def TorchTensor_delete (fs : Finset ℕ) (store : List TT) (t : TT) :
    Except DeleteErr (Finset ℕ × List TT × TT) :=
  match t.deviceType with
  | none => Except.error DeleteErr.useAfterDelete
  | some dt =>
    Except.ok (if dt = DeviceType.disk then TorchDisk_delete fs t else fs,
      store, ⟨none, none, t.delete_file, t.subHandleIds⟩)

/-- TorchMixedDevice.delete (lines 760-763): the body iterates over
`self.tensor.data[0]`, but class TorchMixedDevice defines no attribute
`tensor` (its constructor sets only `name`, `device_type`, `base_devices`),
so any direct invocation raises AttributeError before reaching a
sub-tensor. -/
def TorchMixedDevice_delete (_tensor : TT) : Except AttrErr Unit :=
  Except.error AttrErr.noAttribute

/-- Claim C7: deleting any live handle invalidates it (tier tag and payload
cleared); deleting a live Disk-tier handle with the delete-on-delete flag
set removes its backing file; and deleting an already-deleted handle fails
with the use-after-delete error (the `assert self.device is not None`)
rather than being silently ignored. -/
theorem C7_delete : ∀ (fs : Finset ℕ) (store : List TT) (t : TT)
    (dt : DeviceType), t.deviceType = some dt →
    TorchTensor_delete fs store t
      = Except.ok (if dt = DeviceType.disk then TorchDisk_delete fs t else fs,
          store, ⟨none, none, t.delete_file, t.subHandleIds⟩)
    ∧ (∀ f, t.dataFile = some f → t.delete_file = true →
        f ∉ TorchDisk_delete fs t)
    ∧ (∀ (fs2 : Finset ℕ) (store2 : List TT),
        TorchTensor_delete fs2 store2 ⟨none, none, t.delete_file, t.subHandleIds⟩
          = Except.error DeleteErr.useAfterDelete) := by
  intro fs store t dt hdt
  refine ⟨?_, ?_, fun fs2 store2 => rfl⟩
  · unfold TorchTensor_delete
    rw [hdt]
  · intro f hf hflag
    have heq : TorchDisk_delete fs t
        = if f ∈ fs ∧ t.delete_file = true then fs.erase f else fs := by
      unfold TorchDisk_delete
      rw [hf]
    rw [heq]
    by_cases hmem : f ∈ fs
    · rw [if_pos ⟨hmem, hflag⟩]
      exact Finset.not_mem_erase f fs
    · rw [if_neg (fun hc => hmem hc.1)]
      exact hmem

/-- Claim C7 (witness): concretely deleting a live Disk handle backed by file 5
removes the file; re-deleting the invalidated handle errors. -/
theorem C7_witness :
    TorchTensor_delete {5} [] ⟨some DeviceType.disk, some 5, true, []⟩
      = Except.ok (if DeviceType.disk = DeviceType.disk
          then TorchDisk_delete {5} ⟨some DeviceType.disk, some 5, true, []⟩
          else {5}, [], ⟨none, none, true, []⟩)
    ∧ (5 : ℕ) ∉ TorchDisk_delete {5} ⟨some DeviceType.disk, some 5, true, []⟩
    ∧ TorchTensor_delete {5} [] ⟨none, none, true, []⟩
      = Except.error DeleteErr.useAfterDelete :=
  ⟨(C7_delete {5} [] ⟨some DeviceType.disk, some 5, true, []⟩ DeviceType.disk rfl).1,
   (C7_delete {5} [] ⟨some DeviceType.disk, some 5, true, []⟩ DeviceType.disk rfl).2.1
      5 rfl rfl,
   (C7_delete {5} [] ⟨some DeviceType.disk, some 5, true, []⟩ DeviceType.disk rfl).2.2
      {5} []⟩

/-- Claim C9: deleting a Segmented (mixed-device) handle invalidates only the
top-level handle — the file system and the store holding its sub-handles are
returned unchanged, because `TorchTensor.delete` dispatches to the owning
device only for the Disk tier; and `TorchMixedDevice.delete`, if invoked
directly, fails on the nonexistent `self.tensor` attribute. -/
theorem C9_mixed_delete_frame : ∀ (fs : Finset ℕ) (store : List TT) (t : TT),
    t.deviceType = some DeviceType.mixed →
    TorchTensor_delete fs store t
      = Except.ok (fs, store, ⟨none, none, t.delete_file, t.subHandleIds⟩)
    ∧ TorchMixedDevice_delete t = Except.error AttrErr.noAttribute := by
  intro fs store t hdt
  constructor
  · unfold TorchTensor_delete
    rw [hdt]
    rfl
  · rfl

/-- Claim C9 (witness): a concrete Segmented handle whose three sub-handles
live in the store; deletion leaves the file system and store intact. -/
theorem C9_witness :
    TorchTensor_delete {9} [⟨some DeviceType.cuda, none, true, []⟩,
        ⟨some DeviceType.disk, some 9, true, []⟩]
      ⟨some DeviceType.mixed, none, true, [0, 1]⟩
      = Except.ok ({9}, [⟨some DeviceType.cuda, none, true, []⟩,
          ⟨some DeviceType.disk, some 9, true, []⟩],
          ⟨none, none, true, [0, 1]⟩) :=
  (C9_mixed_delete_frame {9} [⟨some DeviceType.cuda, none, true, []⟩,
      ⟨some DeviceType.disk, some 9, true, []⟩]
    ⟨some DeviceType.mixed, none, true, [0, 1]⟩ rfl).1

/-! ### Segmented allocation (`TorchMixedDevice.allocate`, lines 739-758)

`allocate` asserts `sum(seg_lengths) == shape[SEG_DIM]` and
`len(seg_lengths) == len(self.base_devices)`, builds the boundary offsets
`seg_points` by a running sum starting at 0, and for each base device either
records `None` (empty segment) or allocates a sub-tensor whose shape is the
full shape with the extent at `SEG_DIM` replaced by the segment length
`seg_points[i+1] - seg_points[i]`.  Failed asserts are modelled as `none`. -/

def mixedSegPoints (segLengths : List ℕ) : List ℕ :=
  List.scanl (· + ·) 0 segLengths

def subShape (shape : List ℕ) (segLen : ℕ) : List ℕ :=
  shape.take SEG_DIM ++ segLen :: shape.drop (SEG_DIM + 1)

def TorchMixedDevice_allocate (numDevices : ℕ) (shape : List ℕ)
    (segLengths : List ℕ) : Option (List (Option (List ℕ)) × List ℕ) :=
  if SEG_DIM < shape.length ∧ segLengths.sum = shape.getD SEG_DIM 0
      ∧ segLengths.length = numDevices then
    let pts := mixedSegPoints segLengths
    some ((List.range numDevices).map (fun i =>
        let segLen := pts.getD (i + 1) 0 - pts.getD i 0
        if segLen = 0 then none else some (subShape shape segLen)),
      pts)
  else
    none

theorem scanl_add_getD_zero (l : List ℕ) (a : ℕ) :
    (List.scanl (· + ·) a l).getD 0 0 = a := by
  cases l <;> simp [List.scanl_nil, List.scanl_cons]

theorem scanl_add_getD_succ : ∀ (l : List ℕ) (a i : ℕ), i < l.length →
    (List.scanl (· + ·) a l).getD (i + 1) 0
      = (List.scanl (· + ·) a l).getD i 0 + l.getD i 0 := by
  intro l
  induction l with
  | nil => intro a i h; cases h
  | cons x xs ih =>
    intro a i h
    rw [List.scanl_cons]
    cases i with
    | zero =>
      simp only [List.singleton_append, List.getD_cons_succ, List.getD_cons_zero]
      rw [scanl_add_getD_zero]
    | succ j =>
      simp only [List.singleton_append, List.getD_cons_succ]
      exact ih (a + x) j (Nat.lt_of_succ_lt_succ h)

/-- Claim C4: a successful Segmented allocation implies the requested segment
lengths summed to the shape's extent along axis `SEG_DIM = 1`; the returned
boundary-offset sequence is the running sum of the segment lengths starting
at 0; every segment of nonzero length yields a sub-handle whose shape is the
full shape with the axis-1 extent replaced by that segment length (zero
segments yield no sub-handle); and an allocation whose segment lengths do
not sum to the axis-1 extent fails. -/
theorem C4_mixed_allocate : ∀ (numDevices : ℕ) (shape segLengths : List ℕ)
    (out : List (Option (List ℕ)) × List ℕ),
    TorchMixedDevice_allocate numDevices shape segLengths = some out →
    segLengths.sum = shape.getD SEG_DIM 0
    ∧ out.2 = List.scanl (· + ·) 0 segLengths
    ∧ out.2.getD 0 0 = 0
    ∧ (∀ i, i < segLengths.length →
        out.2.getD (i + 1) 0 = out.2.getD i 0 + segLengths.getD i 0)
    ∧ (∀ i, i < numDevices → segLengths.getD i 0 ≠ 0 →
        out.1.getD i none
          = some (shape.take SEG_DIM ++ segLengths.getD i 0
              :: shape.drop (SEG_DIM + 1)))
    ∧ (∀ i, i < numDevices → segLengths.getD i 0 = 0 →
        out.1.getD i none = none)
    ∧ (∀ (n2 : ℕ) (shape2 seg2 : List ℕ), seg2.sum ≠ shape2.getD SEG_DIM 0 →
        TorchMixedDevice_allocate n2 shape2 seg2 = none) := by
  intro numDevices shape segLengths out hout
  unfold TorchMixedDevice_allocate at hout
  split at hout
  case isFalse => cases hout
  case isTrue hcond =>
    obtain ⟨hlen, hsum, hnum⟩ := hcond
    have hpts : out.2 = mixedSegPoints segLengths := (congrArg Prod.snd
      (Option.some.inj hout)).symm
    have htens : out.1 = (List.range numDevices).map (fun i =>
        let segLen := (mixedSegPoints segLengths).getD (i + 1) 0
          - (mixedSegPoints segLengths).getD i 0
        if segLen = 0 then none else some (subShape shape segLen)) :=
      (congrArg Prod.fst (Option.some.inj hout)).symm
    have hdiff : ∀ i, i < segLengths.length →
        (mixedSegPoints segLengths).getD (i + 1) 0
          - (mixedSegPoints segLengths).getD i 0 = segLengths.getD i 0 := by
      intro i hi
      unfold mixedSegPoints
      rw [scanl_add_getD_succ segLengths 0 i hi]
      omega
    refine ⟨hsum, hpts, ?_, ?_, ?_, ?_, ?_⟩
    · rw [hpts]; exact scanl_add_getD_zero segLengths 0
    · intro i hi
      rw [hpts]
      exact scanl_add_getD_succ segLengths 0 i hi
    · intro i hi hne
      rw [htens, getD_map_of_lt _ (List.range numDevices) i none 0
        (by simpa using hi), getD_range numDevices i 0 hi]
      simp only
      rw [hdiff i (by omega), if_neg hne]
      rfl
    · intro i hi hz
      rw [htens, getD_map_of_lt _ (List.range numDevices) i none 0
        (by simpa using hi), getD_range numDevices i 0 hi]
      simp only
      rw [hdiff i (by omega), if_pos hz]
    · intro n2 shape2 seg2 hne
      unfold TorchMixedDevice_allocate
      rw [if_neg (fun hc => hne hc.2.1)]

/-- Claim C4 (witness): the 50/30/20 scenario — allocating a Segmented tensor
of axis-1 extent 100 with segment lengths `[50, 30, 20]` yields sub-handle
shapes `[2, 50, 8]`, `[2, 30, 8]`, `[2, 20, 8]` and boundary offsets
`[0, 50, 80, 100]`. -/
theorem C4_witness :
    ([50, 30, 20] : List ℕ).sum = ([2, 100, 8] : List ℕ).getD SEG_DIM 0
    ∧ TorchMixedDevice_allocate 3 [2, 100, 8] [50, 30, 20]
      = some ([some [2, 50, 8], some [2, 30, 8], some [2, 20, 8]],
          [0, 50, 80, 100]) :=
  ⟨(C4_mixed_allocate 3 [2, 100, 8] [50, 30, 20]
      ([some [2, 50, 8], some [2, 30, 8], some [2, 20, 8]], [0, 50, 80, 100])
      (by decide)).1,
   by decide⟩

/-! ### Index ranges and `cut_indices` (lines 885-890)

An index tuple is a per-axis list of unit-stride slices (the source asserts
`x.step is None` for every slice).  `cut_indices(indices, start, stop,
base)` replaces only the slice at axis `SEG_DIM = 1` by
`slice(max(seg.start, start) - base, min(seg.stop, stop) - base)`. -/

structure Slice : Type where
  start : ℤ
  stop : ℤ
deriving DecidableEq, Repr

def cut_indices (indices : List Slice) (start stop base : ℤ) : List Slice :=
  let seg := indices.getD SEG_DIM ⟨0, 0⟩
  indices.take SEG_DIM
    ++ (⟨max seg.start start - base, min seg.stop stop - base⟩ : Slice)
    :: indices.drop (SEG_DIM + 1)

/-! ### The copy dispatch (`general_copy`, lines 818-882)

`general_copy` dispatches in source order on the device types of `dst` and
`src`.  We embed a tensor as its device tag, shape, pinned flag, and (for
Segmented tensors) boundary offsets, and embed the dispatch as the action
the call takes; the Segmented branches carry the rebased recursive calls the
loop issues (one per non-degenerate segment). -/

structure GTensor : Type where
  deviceType : DeviceType
  shape : List ℕ
  pinned : Bool
  segPoints : List ℕ
deriving DecidableEq, Repr

inductive CopyAction : Type
  | assertionError
  | recurseMixedDst (calls : List (ℕ × List Slice × List Slice))
  | recurseMixedSrc (calls : List (ℕ × List Slice × List Slice))
  | compressedCopy
  | submitToDiskQueue
  | submitToGlobalDisk
  | pinThenDeviceCopy
  | directCopy
deriving DecidableEq, Repr

/-- Absent index tuples mean the whole tensor:
`indices or tuple(slice(0, x) for x in shape)` (lines 834-835, 848-849). -/
def orElseFull (idx : Option (List Slice)) (shape : List ℕ) : List Slice :=
  idx.getD (shape.map (fun x => (⟨0, (x : ℤ)⟩ : Slice)))

/-- Recursive calls of the `dst`-Segmented branch (lines 831-839): for each
base device `i` with a non-degenerate segment, the source range is cut to
the segment and the destination range is additionally re-based to 0. -/
def mixedDstCalls (pts : List ℕ) (dstIdx srcIdx : List Slice) :
    List (ℕ × List Slice × List Slice) :=
  (List.range (pts.length - 1)).filterMap (fun i =>
    if pts.getD i 0 = pts.getD (i + 1) 0 then none
    else some (i,
      cut_indices dstIdx (pts.getD i 0) (pts.getD (i + 1) 0) (pts.getD i 0),
      cut_indices srcIdx (pts.getD i 0) (pts.getD (i + 1) 0) 0))

/-- Recursive calls of the `src`-Segmented branch (lines 845-853): the
re-basing now applies to the source range. -/
def mixedSrcCalls (pts : List ℕ) (dstIdx srcIdx : List Slice) :
    List (ℕ × List Slice × List Slice) :=
  (List.range (pts.length - 1)).filterMap (fun i =>
    if pts.getD i 0 = pts.getD (i + 1) 0 then none
    else some (i,
      cut_indices dstIdx (pts.getD i 0) (pts.getD (i + 1) 0) 0,
      cut_indices srcIdx (pts.getD i 0) (pts.getD (i + 1) 0) (pts.getD i 0)))

/-- Dispatch structure of `general_copy` (lines 826-882), in source order:
Segmented destination (asserting the source is not Segmented), Segmented
source (asserting the destination is not Segmented), either side Encoded,
source on disk, destination on disk, the CUDA-to-unpinned-CPU staging case
guarded by `not dst.data.is_pinned() and src.shape[0] > 1`, the
unpinned-CPU-to-CUDA pinning case, and the direct non-blocking copy. -/
def general_copy (dst : GTensor) (dstIndices : Option (List Slice))
    (src : GTensor) (srcIndices : Option (List Slice)) : CopyAction :=
  if dst.deviceType = DeviceType.mixed then
    if src.deviceType = DeviceType.mixed then CopyAction.assertionError
    else CopyAction.recurseMixedDst (mixedDstCalls dst.segPoints
      (orElseFull dstIndices dst.shape) (orElseFull srcIndices src.shape))
  else if src.deviceType = DeviceType.mixed then
    CopyAction.recurseMixedSrc (mixedSrcCalls src.segPoints
      (orElseFull dstIndices dst.shape) (orElseFull srcIndices src.shape))
  else if src.deviceType = DeviceType.compressed
      ∨ dst.deviceType = DeviceType.compressed then
    CopyAction.compressedCopy
  else if src.deviceType = DeviceType.disk then
    CopyAction.submitToDiskQueue
  else if dst.deviceType = DeviceType.disk then
    CopyAction.submitToDiskQueue
  else if src.deviceType = DeviceType.cuda ∧ dst.deviceType = DeviceType.cpu
      ∧ dst.pinned = false ∧ 1 < src.shape.getD 0 0 then
    CopyAction.submitToGlobalDisk
  else if src.deviceType = DeviceType.cpu ∧ dst.deviceType = DeviceType.cuda
      ∧ src.pinned = false then
    CopyAction.pinThenDeviceCopy
  else
    CopyAction.directCopy

/-- Claim C5: `cut_indices` changes only the slice at the designated
segmentation axis `SEG_DIM = 1`, replacing `[a, b)` there by
`[max(a, start) - base, min(b, stop) - base)` and leaving every other axis
and the tuple length unchanged; and it is exactly the re-basing operation
both Segmented recursion branches of `general_copy` apply to build their
recursive calls. -/
theorem C5_cut_indices : ∀ (indices : List Slice) (start stop base : ℤ),
    SEG_DIM < indices.length →
    (cut_indices indices start stop base).length = indices.length
    ∧ (cut_indices indices start stop base).getD SEG_DIM ⟨0, 0⟩
      = ⟨max (indices.getD SEG_DIM ⟨0, 0⟩).start start - base,
          min (indices.getD SEG_DIM ⟨0, 0⟩).stop stop - base⟩
    ∧ (∀ j, j < indices.length → j ≠ SEG_DIM →
        (cut_indices indices start stop base).getD j ⟨0, 0⟩
          = indices.getD j ⟨0, 0⟩)
    ∧ (∀ (pts : List ℕ) (dIdx sIdx : List Slice) (i : ℕ) (ci si : List Slice),
        ((i, ci, si) ∈ mixedDstCalls pts dIdx sIdx ↔
          (i < pts.length - 1 ∧ pts.getD i 0 ≠ pts.getD (i + 1) 0
            ∧ ci = cut_indices dIdx (pts.getD i 0) (pts.getD (i + 1) 0)
                (pts.getD i 0)
            ∧ si = cut_indices sIdx (pts.getD i 0) (pts.getD (i + 1) 0) 0))
        ∧ ((i, ci, si) ∈ mixedSrcCalls pts dIdx sIdx ↔
          (i < pts.length - 1 ∧ pts.getD i 0 ≠ pts.getD (i + 1) 0
            ∧ ci = cut_indices dIdx (pts.getD i 0) (pts.getD (i + 1) 0) 0
            ∧ si = cut_indices sIdx (pts.getD i 0) (pts.getD (i + 1) 0)
                (pts.getD i 0)))) := by
  intro indices start stop base h
  have hlen : (indices.take SEG_DIM).length = SEG_DIM := by
    rw [List.length_take]
    omega
  refine ⟨?_, ?_, ?_, ?_⟩
  · unfold cut_indices
    simp only [List.length_append, List.length_cons, List.length_drop, hlen]
    unfold SEG_DIM at h ⊢
    omega
  · unfold cut_indices
    rw [getD_append_ge _ _ _ _ hlen.le]
    simp [hlen]
  · intro j hj hne
    unfold cut_indices
    rcases Nat.lt_or_ge j SEG_DIM with hlt | hge
    · rw [getD_append_lt _ _ _ _ (by omega)]
      exact getD_take_of_lt indices SEG_DIM j _ hlt
    · have hgt : SEG_DIM < j := lt_of_le_of_ne hge (fun hc => hne hc.symm)
      rw [getD_append_ge _ _ _ _ (by omega)]
      rw [hlen]
      have hj2 : j - SEG_DIM = (j - SEG_DIM - 1) + 1 := by omega
      rw [hj2, List.getD_cons_succ, getD_drop]
      congr 1
      omega
  · intro pts dIdx sIdx i ci si
    constructor
    · unfold mixedDstCalls
      rw [List.mem_filterMap]
      constructor
      · rintro ⟨a, ha, hfa⟩
        rw [List.mem_range] at ha
        by_cases hz : pts.getD a 0 = pts.getD (a + 1) 0
        · rw [if_pos hz] at hfa
          cases hfa
        · rw [if_neg hz, Option.some.injEq, Prod.mk.injEq, Prod.mk.injEq] at hfa
          obtain ⟨h1, h2a, h2b⟩ := hfa
          subst h1
          exact ⟨ha, hz, h2a.symm, h2b.symm⟩
      · rintro ⟨hi, hz, hci, hsi⟩
        refine ⟨i, List.mem_range.mpr hi, ?_⟩
        rw [if_neg hz, hci, hsi]
    · unfold mixedSrcCalls
      rw [List.mem_filterMap]
      constructor
      · rintro ⟨a, ha, hfa⟩
        rw [List.mem_range] at ha
        by_cases hz : pts.getD a 0 = pts.getD (a + 1) 0
        · rw [if_pos hz] at hfa
          cases hfa
        · rw [if_neg hz, Option.some.injEq, Prod.mk.injEq, Prod.mk.injEq] at hfa
          obtain ⟨h1, h2a, h2b⟩ := hfa
          subst h1
          exact ⟨ha, hz, h2a.symm, h2b.symm⟩
      · rintro ⟨hi, hz, hci, hsi⟩
        refine ⟨i, List.mem_range.mpr hi, ?_⟩
        rw [if_neg hz, hci, hsi]

/-- Claim C5 (witness): cutting the tuple `[(0,4), (2,9), (0,3)]` to the
segment `[3, 7)` re-based at 3 changes only axis 1, to `(0, 4)`. -/
theorem C5_witness :
    (cut_indices [⟨0, 4⟩, ⟨2, 9⟩, ⟨0, 3⟩] 3 7 3).getD SEG_DIM ⟨0, 0⟩
      = (⟨0, 4⟩ : Slice)
    ∧ cut_indices [⟨0, 4⟩, ⟨2, 9⟩, ⟨0, 3⟩] 3 7 3 = [⟨0, 4⟩, ⟨0, 4⟩, ⟨0, 3⟩] := by
  constructor
  · have h := (C5_cut_indices [⟨0, 4⟩, ⟨2, 9⟩, ⟨0, 3⟩] 3 7 3 (by decide)).2.1
    rw [h]
    decide
  · decide

/-- Modelled from the spec's words for claim C6 only: the number of outer-axis
elements "the transfer spans" — the outer extent of the supplied source
index range, or the source tensor's outer extent when no range is given.
This is the claim's condition; the code's condition is compared against it
below. -/
def specTransferOuterSpan (srcIndices : Option (List Slice))
    (srcShape : List ℕ) : ℤ :=
  match srcIndices with
  | some idx => (idx.getD 0 ⟨0, 0⟩).stop - (idx.getD 0 ⟨0, 0⟩).start
  | none => (srcShape.getD 0 0 : ℤ)

/-- Claim C6 (counterexample): a CUDA-to-unpinned-CPU copy whose source index
range spans exactly one outer element (`slice(0, 1)` on axis 0) is still
enqueued onto the worker queue, because the code's guard tests
`src.shape[0] > 1` — the source tensor's outer extent (here 2) — not the
extent of the transfer; the claim's "exactly when ... the transfer spans
more than one outer element" is false at this input. -/
theorem C6_counterexample :
    specTransferOuterSpan (some [⟨0, 1⟩, ⟨0, 4⟩]) [2, 4] = 1
    ∧ ¬ (1 : ℤ) > 1
    ∧ general_copy ⟨DeviceType.cpu, [2, 4], false, []⟩ (some [⟨0, 1⟩, ⟨0, 4⟩])
        ⟨DeviceType.cuda, [2, 4], false, []⟩ (some [⟨0, 1⟩, ⟨0, 4⟩])
      = CopyAction.submitToGlobalDisk := by
  decide

/-- Claim C6 (amended): for a `general_copy` call with source on the
Accelerator and destination on the Host (these tags exclude Segmented,
Encoded and Disk on both sides), the copy is enqueued onto the background
worker queue exactly when the destination buffer is not pinned and the
source tensor's outer extent `src.shape[0]` is greater than one — the guard
tests the tensor's shape, not the extent of the index range transferred —
and otherwise the call takes the direct device copy path. -/
theorem C6_cuda_to_cpu_dispatch : ∀ (dst src : GTensor)
    (dIdx sIdx : Option (List Slice)),
    src.deviceType = DeviceType.cuda → dst.deviceType = DeviceType.cpu →
    (general_copy dst dIdx src sIdx = CopyAction.submitToGlobalDisk
      ↔ (dst.pinned = false ∧ 1 < src.shape.getD 0 0))
    ∧ (¬ (dst.pinned = false ∧ 1 < src.shape.getD 0 0) →
        general_copy dst dIdx src sIdx = CopyAction.directCopy) := by
  intro dst src dIdx sIdx hs hd
  by_cases hp : dst.pinned = false
  · by_cases hn : 1 < src.shape.getD 0 0
    · have hn2 : 1 < src.shape[0]?.getD 0 := by simpa using hn
      have hres : general_copy dst dIdx src sIdx
          = CopyAction.submitToGlobalDisk := by
        simp [general_copy, hs, hd, hp, hn2]
      exact ⟨by rw [hres]; exact ⟨fun _ => ⟨hp, hn⟩, fun _ => rfl⟩,
        fun hcon => absurd ⟨hp, hn⟩ hcon⟩
    · have hn2 : ¬ 1 < src.shape[0]?.getD 0 := by simpa using hn
      have hres : general_copy dst dIdx src sIdx = CopyAction.directCopy := by
        simp [general_copy, hs, hd, hp, hn2]
      refine ⟨?_, fun _ => hres⟩
      rw [hres]
      exact ⟨fun hcon => absurd hcon (by decide),
        fun hcon => absurd hcon.2 hn⟩
  · have hp2 : dst.pinned = true := by
      cases hpv : dst.pinned
      · exact absurd hpv hp
      · rfl
    have hres : general_copy dst dIdx src sIdx = CopyAction.directCopy := by
      simp [general_copy, hs, hd, hp2]
    refine ⟨?_, fun _ => hres⟩
    rw [hres]
    exact ⟨fun hcon => absurd hcon (by decide), fun hcon => absurd hcon.1 hp⟩

/-- Claim C6 (witness): an unrestricted CUDA-to-unpinned-CPU copy of a tensor
with outer extent 2 is enqueued onto the worker queue. -/
theorem C6_witness :
    general_copy ⟨DeviceType.cpu, [2, 4], false, []⟩ none
        ⟨DeviceType.cuda, [2, 4], false, []⟩ none
      = CopyAction.submitToGlobalDisk :=
  (C6_cuda_to_cpu_dispatch ⟨DeviceType.cpu, [2, 4], false, []⟩
    ⟨DeviceType.cuda, [2, 4], false, []⟩ none none rfl rfl).1.mpr
    ⟨rfl, by decide⟩

/-! ### Sparse decode attention (`TorchDevice._sparse_attention_value`,
lines 516-548)

Attention scores are computed over `src_s` positions — the history length
`L`, current position included (the current position is the last, index
`L - 1`).  The code selects `topk = int(attn_sparsity * (L - 1))` positions
from the first `L - 1` (historical) scores by `topk(...)`, gathers those
value vectors from the cache, and appends the current new value vector, for
`topk + 1` vectors in the final weighted sum.  We embed the per-head score
row as a rational list and the selection as the chosen position indices. -/

/-- Python `int()` applied to a rational: truncation toward zero. -/
def pyInt (q : ℚ) : ℤ := if 0 ≤ q then ⌊q⌋ else -⌊-q⌋

/-- `topk = int(attn_sparsity * (attn_weights.shape[2] - 1))` (line 520). -/
def sparse_attention_topk (attn_sparsity : ℚ) (L : ℕ) : ℤ :=
  pyInt (attn_sparsity * ((L : ℚ) - 1))

/-- Indices of the `k` largest entries of `scores` (the `topk(..., sorted=False)`
of lines 521-522; index order among the selected is irrelevant here). -/
def topkIndices (scores : List ℚ) (k : ℕ) : List ℕ :=
  (List.insertionSort (fun i j => scores.getD j 0 ≤ scores.getD i 0)
    (List.range scores.length)).take k

/-- Position indices whose value vectors enter the final `bmm` of
`_sparse_attention_value`: the top-`topk` historical positions
(`attn_weights[:, :, :-1].topk(...)`, lines 521-522) followed by the current
position (`attn_weights[:, :, -1]` and `v[topk:topk+1] = v_new`,
lines 525-526 and 542-543). -/
def sparse_attention_selection (scores : List ℚ) (attn_sparsity : ℚ) :
    List ℕ :=
  let k := (sparse_attention_topk attn_sparsity scores.length).toNat
  topkIndices scores.dropLast k ++ [scores.length - 1]

/-- Claim C3: for a sparse decode step with `0 ≤ sparsity < 1` over a score
history of length `L ≥ 1` (current position included), the path selects
exactly `k = floor(sparsity * (L - 1))` historical positions — each a
strictly earlier index than the current position `L - 1` — and always also
includes the current position, gathering exactly `k + 1` value vectors. -/
theorem C3_sparse_selection : ∀ (scores : List ℚ) (s : ℚ),
    0 ≤ s → s < 1 → 1 ≤ scores.length →
    sparse_attention_topk s scores.length
      = ⌊s * ((scores.length : ℚ) - 1)⌋
    ∧ (topkIndices scores.dropLast
        (sparse_attention_topk s scores.length).toNat).length
      = (sparse_attention_topk s scores.length).toNat
    ∧ (sparse_attention_selection scores s).length
      = (sparse_attention_topk s scores.length).toNat + 1
    ∧ (scores.length - 1) ∈ sparse_attention_selection scores s
    ∧ (∀ i ∈ topkIndices scores.dropLast
        (sparse_attention_topk s scores.length).toNat,
        i < scores.length - 1) := by
  intro scores s hs0 hs1 hL
  have hx0 : (0 : ℚ) ≤ s * ((scores.length : ℚ) - 1) := by
    have : (1 : ℚ) ≤ (scores.length : ℚ) := by exact_mod_cast hL
    have h1 : (0 : ℚ) ≤ (scores.length : ℚ) - 1 := by linarith
    exact mul_nonneg hs0 h1
  have hfloor : sparse_attention_topk s scores.length
      = ⌊s * ((scores.length : ℚ) - 1)⌋ := by
    unfold sparse_attention_topk pyInt
    rw [if_pos hx0]
  have hkle : (sparse_attention_topk s scores.length).toNat
      ≤ scores.length - 1 := by
    rw [hfloor]
    rw [Int.toNat_le]
    have hle : s * ((scores.length : ℚ) - 1) ≤ (scores.length : ℚ) - 1 := by
      have h1 : (0 : ℚ) ≤ (scores.length : ℚ) - 1 := by
        have : (1 : ℚ) ≤ (scores.length : ℚ) := by exact_mod_cast hL
        linarith
      nlinarith
    calc ⌊s * ((scores.length : ℚ) - 1)⌋
        ≤ ⌊(scores.length : ℚ) - 1⌋ := Int.floor_le_floor hle
      _ = ((scores.length - 1 : ℕ) : ℤ) := by
          rw [show ((scores.length : ℚ) - 1) = ((scores.length - 1 : ℕ) : ℚ) by
            push_cast [Nat.cast_sub hL]
            ring]
          exact Int.floor_natCast _
  have hdrop : scores.dropLast.length = scores.length - 1 :=
    List.length_dropLast scores
  have htklen : ∀ k : ℕ, k ≤ scores.length - 1 →
      (topkIndices scores.dropLast k).length = k := by
    intro k hk
    unfold topkIndices
    rw [List.length_take, List.length_insertionSort, List.length_range, hdrop]
    omega
  have hlen2 := htklen _ hkle
  refine ⟨hfloor, hlen2, ?_, ?_, ?_⟩
  · unfold sparse_attention_selection
    rw [List.length_append, hlen2]
    rfl
  · unfold sparse_attention_selection
    exact List.mem_append_right _ (List.mem_singleton.mpr rfl)
  · intro i hi
    unfold topkIndices at hi
    have hi2 := List.take_subset _ _ hi
    have hi3 := (List.perm_insertionSort
      (fun i j => scores.dropLast.getD j 0 ≤ scores.dropLast.getD i 0)
      (List.range scores.dropLast.length)).subset hi2
    rw [List.mem_range, hdrop] at hi3
    exact hi3

/-- Floor of nine halves, used to evaluate the concrete scenario. -/
theorem floor_nine_halves : ⌊(9 / 2 : ℚ)⌋ = 4 := by
  rw [Int.floor_eq_iff]
  norm_num

/-- Claim C3 (witness): the scenario with history length 10 and sparsity 0.5 —
`k = floor(0.5 * 9) = 4` historical positions are selected, the current
position 9 is included, and 5 value vectors are gathered in total. -/
theorem C3_witness :
    sparse_attention_topk (1 / 2) 10 = 4
    ∧ (sparse_attention_selection [5, 1, 4, 1, 5, 9, 2, 6, 5, 3] (1 / 2)).length
      = 5
    ∧ (9 : ℕ) ∈ sparse_attention_selection [5, 1, 4, 1, 5, 9, 2, 6, 5, 3]
        (1 / 2) := by
  have hlen10 : ([5, 1, 4, 1, 5, 9, 2, 6, 5, 3] : List ℚ).length = 10 := rfl
  have h := C3_sparse_selection [5, 1, 4, 1, 5, 9, 2, 6, 5, 3] (1 / 2)
    (by norm_num) (by norm_num) (by decide)
  rw [hlen10] at h
  have h4 := h.1
  rw [show ((1 : ℚ) / 2) * ((((10 : ℕ)) : ℚ) - 1) = 9 / 2 by norm_num] at h4
  have hk : sparse_attention_topk (1 / 2) 10 = 4 := h4.trans floor_nine_halves
  refine ⟨hk, ?_, h.2.2.2.1⟩
  rw [h.2.2.1, hk]
  rfl

/-! ### Input embedding (`TorchDevice.opt_input_embed`, lines 243-272)

Per batch row: `token_embed = F.embedding(token_ids, w_token, pad_token_id)`
(the functional form returns the row of the weight matrix unchanged — the
`padding_idx` argument only suppresses gradients, it does not zero the
output); `positions = cumsum(mask, dim=1) * mask + 1`;
`positions = positions[:, past_key_values_length:]` where
`past_key_values_length = mask.shape[1] - token_ids.shape[1]`; the result is
`token_embed + F.embedding(positions, w_pos)`.  Masks are 0/1 lists,
embedding matrices are functions from row index to a rational vector. -/

def cumsumAux (acc : ℕ) : List ℕ → List ℕ
  | [] => []
  | x :: xs => (acc + x) :: cumsumAux (acc + x) xs

/-- `torch.cumsum(mask, dim=1)` on one row (line 261). -/
def maskCumsum (mask : List ℕ) : List ℕ := cumsumAux 0 mask

/-- `positions = torch.cumsum(mask, dim=1).int() * mask + 1` (line 261),
elementwise on one row. -/
def optPositions (mask : List ℕ) : List ℕ :=
  List.zipWith (fun c m => c * m + 1) (maskCumsum mask) mask

def vecAdd (a b : List ℚ) : List ℚ := List.zipWith (· + ·) a b

/-- One batch row of `opt_input_embed` (lines 249-272): token embedding plus
position embedding at the cut positions. -/
def opt_input_embed (wTok wPos : ℕ → List ℚ) (token_ids mask : List ℕ) :
    List (List ℚ) :=
  let positions := (optPositions mask).drop (mask.length - token_ids.length)
  List.zipWith (fun tid p => vecAdd (wTok tid) (wPos p)) token_ids positions

theorem cumsumAux_length : ∀ (l : List ℕ) (acc : ℕ),
    (cumsumAux acc l).length = l.length := by
  intro l
  induction l with
  | nil => intro acc; rfl
  | cons x xs ih =>
    intro acc
    simp only [cumsumAux, List.length_cons, ih]

theorem cumsumAux_getD : ∀ (l : List ℕ) (acc i : ℕ), i < l.length →
    (cumsumAux acc l).getD i 0 = acc + (l.take (i + 1)).sum := by
  intro l
  induction l with
  | nil => intro acc i h; cases h
  | cons x xs ih =>
    intro acc i h
    cases i with
    | zero => simp [cumsumAux]
    | succ j =>
      simp only [cumsumAux, List.getD_cons_succ, List.take_succ_cons,
        List.sum_cons]
      rw [ih (acc + x) j (Nat.lt_of_succ_lt_succ h)]
      omega

/-- Claim C8 (counterexample): with token row `[0, 7]`, mask `[0, 1]` (index 0
is padding, `pad_token_id = 0`), no cached prefix, a token matrix whose pad
row is the zero vector `[0]`, and a position matrix with row 1 equal to
`[9]`: the single non-pad token (running count 1) receives position index 2,
not 1, and the pad position's embedding output is `[9]`, not the zero
vector — its position index is 1 and row 1 of the position matrix is added
to the zero token row. -/
theorem C8_counterexample :
    optPositions [0, 1] = [1, 2]
    ∧ (([0, 1] : List ℕ).take 2).sum = 1
    ∧ opt_input_embed (fun t => if t = 0 then [(0 : ℚ)] else [3])
        (fun p => if p = 1 then [(9 : ℚ)] else [1]) [0, 7] [0, 1]
      = [[9], [4]]
    ∧ [(9 : ℚ)] ≠ ([0] : List ℚ) := by
  refine ⟨rfl, rfl,
    by norm_num [opt_input_embed, optPositions, maskCumsum, cumsumAux, vecAdd], ?_⟩
  intro hc
  cases hc

/-- Claim C8 (amended): in the embedding stage each position index produced by
the code is `cumsum(mask)[i] * mask[i] + 1` — that is, one plus the running
count of non-padding tokens up to and including position `i` for a non-pad
token, and the constant 1 for a pad position; with no cached prefix the
output row at `i` is the token-matrix row for the token id plus the
position-matrix row for that index.  A pad position therefore resolves to
`w_token[pad] + w_pos[1]`, which is the zero vector only when both those
rows are zero. -/
theorem C8_positions : ∀ (mask : List ℕ) (i : ℕ), i < mask.length →
    (optPositions mask).getD i 0 = (mask.take (i + 1)).sum * mask.getD i 0 + 1
    ∧ (mask.getD i 0 = 0 → (optPositions mask).getD i 0 = 1)
    ∧ (∀ (wTok wPos : ℕ → List ℚ) (token_ids : List ℕ),
        token_ids.length = mask.length →
        (opt_input_embed wTok wPos token_ids mask).getD i []
          = vecAdd (wTok (token_ids.getD i 0))
              (wPos ((optPositions mask).getD i 0))) := by
  intro mask i h
  have hclen : (maskCumsum mask).length = mask.length := cumsumAux_length mask 0
  have hpos : (optPositions mask).getD i 0
      = (mask.take (i + 1)).sum * mask.getD i 0 + 1 := by
    unfold optPositions
    rw [getD_zipWith _ (maskCumsum mask) mask i 0 0 0 (by omega) h]
    unfold maskCumsum
    rw [cumsumAux_getD mask 0 i h, Nat.zero_add]
  refine ⟨hpos, ?_, ?_⟩
  · intro hz
    rw [hpos, hz, Nat.mul_zero]
  · intro wTok wPos token_ids hlen
    unfold opt_input_embed
    rw [hlen, Nat.sub_self, List.drop_zero]
    have hplen : (optPositions mask).length = mask.length := by
      unfold optPositions
      rw [List.length_zipWith, hclen, Nat.min_self]
    exact getD_zipWith _ token_ids (optPositions mask) i [] 0 0
      (by omega) (by omega)

/-- Claim C8 (witness): for the all-ones mask `[1, 1]` the first position index
is one plus the running count 1, i.e. 2. -/
theorem C8_witness :
    (optPositions [1, 1]).getD 0 0
      = (([1, 1] : List ℕ).take 1).sum * ([1, 1] : List ℕ).getD 0 0 + 1 :=
  (C8_positions [1, 1] 0 (by decide)).1
